import Mathlib

/-!
# Verification of the Diamond Store points ledger and weekly incentive engine

Shallow embedding of the core logic of the Diamond_Store_Backend repository:
the tiered weekly-reward calculator, the Asia/Colombo week-boundary
calculator, and the balance/ledger state machine (order creation, order
status transition, admin point grant, point-request processing, and the
weekly reward reconciler `calculateAndAddWeeklyReward`).

Numbers are modelled as exact rationals (`ℚ`): JavaScript's `Math.round`
becomes `⌊x + 1/2⌋` (round half up), and the percentage rates `0.01`,
`0.016`, `0.021`, `0.026` become the exact rationals they denote.
Timestamps are integers; the datastore is a record of a user table
(a partial map from id to row), an order list and an append-only
transaction list.  A request handler that rolls back its transaction and
reports an error is modelled as a function into `Except`, where an
`error` result leaves the state unchanged by construction.
-/

namespace DiamondStore

/-- JavaScript `Math.round`: round half toward positive infinity.
Models `Math.round(x)` in `src/routes/users.js`. -/
def jsRound (x : ℚ) : ℤ := Rat.floor (x + 1/2)

/-- `jsRound` is the floor of `x + 1/2`. -/
theorem jsRound_eq_floor (x : ℚ) : jsRound x = ⌊x + 1/2⌋ := by
  rw [jsRound, Rat.floor_def' (x + 1/2), Rat.floor_def]

/-- `Math.round(x * 100) / 100`: round to 2 decimal places, half up
(`src/routes/users.js` lines 238, 254, 544, 611). -/
def round2 (x : ℚ) : ℚ := (jsRound (x * 100) : ℚ) / 100

/-- The tier computation of `calculateAndAddWeeklyReward`
(`src/routes/users.js` lines 211-237): marginal bands
4500-18000 at 1%, 18000-45000 at 1.6%, 45000-90000 at 2.1%,
above 90000 at 2.6%, before rounding. -/
def tierRewardRaw (weeklySales : ℚ) : ℚ :=
  (if weeklySales > 4500 then
    (let tier1Amount := min weeklySales 18000 - 4500
     if tier1Amount > 0 then tier1Amount * (1/100) else 0)
   else 0)
  + (if weeklySales > 18000 then
    (let tier2Amount := min weeklySales 45000 - 18000
     if tier2Amount > 0 then tier2Amount * (16/1000) else 0)
   else 0)
  + (if weeklySales > 45000 then
    (let tier3Amount := min weeklySales 90000 - 45000
     if tier3Amount > 0 then tier3Amount * (21/1000) else 0)
   else 0)
  + (if weeklySales > 90000 then
    (let tier4Amount := weeklySales - 90000
     if tier4Amount > 0 then tier4Amount * (26/1000) else 0)
   else 0)

/-- `totalReward = Math.round(totalReward * 100) / 100` applied to the tier
sum: the reward the reconciler computes from a weekly sales total
(`src/routes/users.js` lines 211-238). -/
def computeReward (weeklySales : ℚ) : ℚ := round2 (tierRewardRaw weeklySales)

/-- The tier computation inlined into the `GET /dashboard` handler
(`src/routes/users.js` lines 500-544), transcribed independently:
per-tier accumulators `tier1Reward` .. `tier4Reward` summed into
`totalReward` and rounded to 2 decimals. -/
def dashboardTierReward (weeklySales : ℚ) : ℚ :=
  let tier1Reward : ℚ :=
    if weeklySales > 4500 then
      (let tier1Amount := min weeklySales 18000 - 4500
       if tier1Amount > 0 then tier1Amount * (1/100) else 0)
    else 0
  let tier2Reward : ℚ :=
    if weeklySales > 18000 then
      (let tier2Amount := min weeklySales 45000 - 18000
       if tier2Amount > 0 then tier2Amount * (16/1000) else 0)
    else 0
  let tier3Reward : ℚ :=
    if weeklySales > 45000 then
      (let tier3Amount := min weeklySales 90000 - 45000
       if tier3Amount > 0 then tier3Amount * (21/1000) else 0)
    else 0
  let tier4Reward : ℚ :=
    if weeklySales > 90000 then
      (let tier4Amount := weeklySales - 90000
       if tier4Amount > 0 then tier4Amount * (26/1000) else 0)
    else 0
  round2 (tier1Reward + tier2Reward + tier3Reward + tier4Reward)

/-! ## Week boundary calculator

`getWeekBoundaries` in `src/routes/users.js` (lines 39-135).  The current
instant in the fixed Asia/Colombo timezone is modelled as an absolute day
index (an integer, with the convention that day indices congruent to 0
mod 7 are Sundays, so index 4 mod 7 is a Thursday — matching the
`weekdayMap` of the source) together with an hour and minute of that local
day.  Date subtraction `thursdayDate.setDate(getDate() - d)` is day-index
subtraction; Asia/Colombo has a fixed UTC offset and no DST, so local day
arithmetic is uniform. -/

/-- A local date-time in the fixed Asia/Colombo timezone. -/
structure ColomboDT where
  day : ℤ
  hour : ℕ
  minute : ℕ

/-- Weekday of a day index: 0 = Sunday, ..., 4 = Thursday, 6 = Saturday,
mirroring `weekdayMap` in the source. -/
def weekdayOf (day : ℤ) : ℤ := day % 7

/-- `daysToSubtract` computation of `getWeekBoundaries`
(`src/routes/users.js` lines 53-69). -/
def daysToSubtract (dt : ColomboDT) : ℤ :=
  let currentDay := weekdayOf dt.day
  if currentDay = 4 then
    (if dt.hour < 21 ∨ (dt.hour = 21 ∧ dt.minute < 30) then 7 else 0)
  else if currentDay < 4 then
    3 + currentDay
  else if currentDay = 5 then 1
  else if currentDay = 6 then 2
  else 3

/-- The period returned by `getWeekBoundaries`: start day at 21:30 local
and end day seven days later at 21:30 local. -/
structure WeekBounds where
  startDay : ℤ
  startHour : ℕ
  startMinute : ℕ
  endDay : ℤ
  endHour : ℕ
  endMinute : ℕ

/-- `getWeekBoundaries` (`src/routes/users.js` lines 39-135): back up to the
most recent Thursday (last week's if it is Thursday before 21:30), anchor
the week start at 21:30 that day, and end seven days later. -/
def getWeekBoundaries (dt : ColomboDT) : WeekBounds :=
  let thursdayDay := dt.day - daysToSubtract dt
  { startDay := thursdayDay
    startHour := 21
    startMinute := 30
    endDay := thursdayDay + 7
    endHour := 21
    endMinute := 30 }

/-! ## The reward marker string

`calculateAndAddWeeklyReward` records its reward in a ledger entry whose
description is
``Weekly Sale Reward: ${totalReward.toFixed(2)} (Sales: ${weeklySales.toLocaleString()})``
and later reads the previously granted amount back with the regular
expression `/Weekly Sale Reward: ([\d.]+)/` followed by `parseFloat`
(`src/routes/users.js` lines 244-252, 273-275).  We model the relevant
string operations over `List Char`. -/

/-- Decimal digit character for `d < 10` (used by number formatting). -/
def digitCh (d : ℕ) : Char :=
  match d with
  | 0 => '0' | 1 => '1' | 2 => '2' | 3 => '3' | 4 => '4'
  | 5 => '5' | 6 => '6' | 7 => '7' | 8 => '8' | _ => '9'

/-- Is `c` an ASCII decimal digit (`\d` of the marker regex)? -/
def isDigitCh (c : Char) : Bool := 48 ≤ c.toNat && c.toNat ≤ 57

/-- Is `c` matched by the character class `[\d.]` of the marker regex? -/
def isTokCh (c : Char) : Bool := isDigitCh c || c = '.'

/-- Numeric value of a digit character. -/
def chDigit (c : Char) : ℕ := c.toNat - 48

/-- Little-endian decimal digits, with explicit fuel (the fuel is always
sufficient when it starts at the number itself, see
`natDigitsRevAux_val`). -/
def natDigitsRevAux : ℕ → ℕ → List ℕ
  | 0, n => [n % 10]
  | fuel + 1, n => if n < 10 then [n] else n % 10 :: natDigitsRevAux fuel (n / 10)

/-- Little-endian decimal digits of a natural number. -/
def natDigitsRev (n : ℕ) : List ℕ := natDigitsRevAux n n

/-- Big-endian decimal digit characters of `n` (how JavaScript renders
the integer part of a nonnegative number). -/
def natChars (n : ℕ) : List Char := ((natDigitsRev n).reverse).map digitCh

/-- Exactly two digit characters for `m < 100`: the fractional part
produced by `toFixed(2)`. -/
def twoDigChars (m : ℕ) : List Char := [digitCh (m / 10), digitCh (m % 10)]

/-- `x.toFixed(2)` for the nonnegative number `x = cents / 100`:
integer part, a dot, and exactly two fractional digits. -/
def fixed2Chars (cents : ℕ) : List Char :=
  natChars (cents / 100) ++ '.' :: twoDigChars (cents % 100)

/-- `n.toLocaleString()` for a natural number under the server's `en-US`
default locale: decimal digits grouped in threes by commas.  Helper on
little-endian digit characters carrying the position. -/
def commaRev : ℕ → List Char → List Char
  | _, [] => []
  | pos, c :: cs =>
      (if pos ≠ 0 ∧ pos % 3 = 0 then [',', c] else [c]) ++ commaRev (pos + 1) cs

/-- `n.toLocaleString()` (used in the `(Sales: ...)` suffix of the
reward description). -/
def natLocaleChars (n : ℕ) : List Char :=
  (commaRev 0 ((natDigitsRev n).map digitCh)).reverse

/-- Value of big-endian digit characters (behaviour of `parseFloat` on a
digit run). -/
def digitsVal (l : List Char) : ℕ := l.foldl (fun a c => 10 * a + chDigit c) 0

/-- `parseFloat` applied to a token matched by `[\d.]+`: leading digits
form the integer part; if a dot follows, the digits after it (up to the
next non-digit, e.g. a second dot) form the fraction; a token with no
digit in scanning position (such as `"."`) is NaN, modelled as `none`. -/
def parseFloatTok (tok : List Char) : Option ℚ :=
  let intDigits := tok.takeWhile isDigitCh
  match tok.drop intDigits.length with
  | '.' :: rest =>
      let fracDigits := rest.takeWhile isDigitCh
      if intDigits.isEmpty ∧ fracDigits.isEmpty then none
      else some ((digitsVal intDigits : ℚ)
        + (digitsVal fracDigits : ℚ) / 10 ^ fracDigits.length)
  | _ => if intDigits.isEmpty then none else some (digitsVal intDigits)

/-- Does `s` start with `pat`? -/
def startsWithChars : List Char → List Char → Bool
  | [], _ => true
  | _ :: _, [] => false
  | p :: ps, c :: cs => p = c && startsWithChars ps cs

/-- The literal part of the marker regex `/Weekly Sale Reward: ([\d.]+)/`. -/
def markerPat : List Char := "Weekly Sale Reward: ".data

/-- The pattern of the SQL filter `description LIKE 'Weekly Sale Reward%'`
(`src/routes/users.js` lines 204, 493). -/
def likePat : List Char := "Weekly Sale Reward".data

/-- First-match capture of `/Weekly Sale Reward: ([\d.]+)/`: scan for the
first position where the literal is followed by a non-empty maximal run
of `[\d.]` characters (the regex engine resumes scanning when the
capture group cannot match). -/
def markerCapture : List Char → Option (List Char)
  | [] => none
  | c :: rest =>
      if startsWithChars markerPat (c :: rest) then
        let tok := ((c :: rest).drop markerPat.length).takeWhile isTokCh
        if tok.isEmpty then markerCapture rest else some tok
      else markerCapture rest

/-- `match ? parseFloat(match[1]) : 0` (`src/routes/users.js` line 247):
the previously granted amount read back out of a description.  `some 0`
when the regex does not match at all; `none` models `NaN` (a token such
as `"."` that `parseFloat` cannot parse). -/
def existingAmountOf (desc : String) : Option ℚ :=
  match markerCapture desc.data with
  | none => some 0
  | some tok => parseFloatTok tok

/-- The description written for a reward entry
(`src/routes/users.js` lines 273-275): the cumulative `totalReward`
(whose value is `totalCents / 100`) rendered by `toFixed(2)` and the
sales figure rendered by `toLocaleString()`. -/
def rewardDescChars (totalCents : ℕ) (sales : ℕ) : List Char :=
  markerPat ++ fixed2Chars totalCents ++ " (Sales: ".data
    ++ natLocaleChars sales ++ [')']

/-- The reward description as a `String`. -/
def rewardDesc (totalCents : ℕ) (sales : ℕ) : String :=
  ⟨rewardDescChars totalCents sales⟩

/-! ## The datastore

MySQL state touched by the core: the `users` table (modelled as a partial
map from user id to row), the `orders` table and the append-only
`transactions` table.  Timestamps are integers. -/

/-- `users.role`. -/
inductive Role where
  | USER
  | ADMIN
deriving DecidableEq

/-- A `users` row: the fields the ledger subsystem touches. -/
structure UserRow where
  points_balance : ℚ
  role : Role
deriving DecidableEq

/-- `orders.status`. -/
inductive OrderStatus where
  | PENDING
  | COMPLETED
  | REJECTED
deriving DecidableEq

/-- An `orders` row. -/
structure Order where
  id : ℕ
  order_number : String
  user_id : ℕ
  diamond_amount : ℕ
  quantity : ℕ
  points_used : ℕ
  status : OrderStatus
  created_at : ℤ
deriving DecidableEq

/-- `transactions.transaction_type`. -/
inductive TxKind where
  | ADDED
  | DEDUCTED
  | REFUNDED
deriving DecidableEq

/-- A `transactions` (ledger) row. -/
structure TxEntry where
  user_id : ℕ
  amount : ℚ
  transaction_type : TxKind
  description : String
  admin_id : Option ℕ
  created_at : ℤ
deriving DecidableEq

/-- `point_requests.status`. -/
inductive ReqStatus where
  | PENDING
  | APPROVED
  | REJECTED
deriving DecidableEq

/-- A `point_requests` row. -/
structure PointRequest where
  id : ℕ
  user_id : ℕ
  requested_amount : ℕ
  status : ReqStatus
deriving DecidableEq

/-- The datastore. -/
structure DB where
  users : ℕ → Option UserRow
  orders : List Order
  transactions : List TxEntry
  requests : List PointRequest

/-- Add `delta` to one user's balance (`UPDATE users SET points_balance =
points_balance + ? WHERE id = ?`); the update touches no row when the
user id does not exist, exactly like the SQL `UPDATE`. -/
def DB.bumpBalance (db : DB) (userId : ℕ) (delta : ℚ) : ℕ → Option UserRow :=
  fun u =>
    if u = userId then
      (db.users u).map fun r => { r with points_balance := r.points_balance + delta }
    else db.users u

/-- The fixed package list `DIAMOND_PACKAGES` (`src/routes/orders.js`
line 17). -/
def DIAMOND_PACKAGES : List ℕ := [10, 50, 100, 200, 500, 1000, 2000, 5000, 10000]

/-! ## Weekly reward reconciler (`calculateAndAddWeeklyReward`) -/

/-- `SUM(diamond_amount * quantity)` over the user's COMPLETED orders with
`created_at` in `[weekStart, weekEnd)` (`src/routes/users.js`
lines 179-188). -/
def weeklySalesOf (db : DB) (userId : ℕ) (wkStart wkEnd : ℤ) : ℕ :=
  ((db.orders.filter fun o =>
      decide (o.user_id = userId) && decide (o.status = OrderStatus.COMPLETED)
        && decide (wkStart ≤ o.created_at) && decide (o.created_at < wkEnd)).map
    fun o => o.diamond_amount * o.quantity).sum

/-- Keep the entry with the larger `created_at`; on ties the later row
wins (the query orders by `created_at DESC` and takes one row; rows
inserted later in this model stand for rows the database returns first
among equal timestamps). -/
def pickLater (best : Option TxEntry) (e : TxEntry) : Option TxEntry :=
  match best with
  | none => some e
  | some b => if b.created_at ≤ e.created_at then some e else some b

/-- The idempotency lookup (`src/routes/users.js` lines 200-209): the most
recent `ADDED` ledger entry of the user whose description matches
`LIKE 'Weekly Sale Reward%'` with `created_at >= weekStart`. -/
def latestRewardEntry (db : DB) (userId : ℕ) (wkStart : ℤ) : Option TxEntry :=
  (db.transactions.filter fun e =>
      decide (e.user_id = userId) && decide (e.transaction_type = TxKind.ADDED)
        && startsWithChars likePat e.description.data
        && decide (wkStart ≤ e.created_at)).foldl pickLater none

/-- The incremental reward (`src/routes/users.js` lines 241-254): the full
`totalReward` when no reward entry exists this period, otherwise the
excess of `totalReward` over the amount parsed back out of the existing
description (`0` when the regex does not match; a NaN parse makes the
comparison false), rounded to 2 decimals. -/
def rewardDelta (totalReward : ℚ) (existing : Option TxEntry) : ℚ :=
  round2 (match existing with
    | none => totalReward
    | some e =>
        match existingAmountOf e.description with
        | none => 0
        | some x => if totalReward > x then totalReward - x else 0)

/-- The value returned by `calculateAndAddWeeklyReward`
(`src/routes/users.js` lines 194, 289-293): `rewardAmount` is absent on
the below-threshold early return. -/
structure RewardResult where
  weeklySales : ℕ
  rewardAdded : Bool
  rewardAmount : Option ℚ
deriving DecidableEq

/-- `calculateAndAddWeeklyReward(userId)` (`src/routes/users.js`
lines 165-300).  The current period (from `getWeekBoundaries`) and the
insertion timestamp are passed explicitly.  Below 4500 weekly sales:
commit with no change.  Otherwise compute the tiered reward, subtract
the previously granted amount read from the marker entry, and if the
difference is positive add it to the balance and append the marker
entry, all in one transaction. -/
def calculateAndAddWeeklyReward (db : DB) (userId : ℕ)
    (wkStart wkEnd now : ℤ) : DB × RewardResult :=
  let weeklySales := weeklySalesOf db userId wkStart wkEnd
  if weeklySales < 4500 then
    (db, ⟨weeklySales, false, none⟩)
  else
    let totalRaw := tierRewardRaw (weeklySales : ℚ)
    let totalReward := round2 totalRaw
    let rewardToAdd := rewardDelta totalReward (latestRewardEntry db userId wkStart)
    if rewardToAdd > 0 then
      ({ db with
          users := db.bumpBalance userId rewardToAdd
          transactions := db.transactions ++
            [⟨userId, rewardToAdd, TxKind.ADDED,
              rewardDesc (jsRound (totalRaw * 100)).toNat weeklySales, none, now⟩] },
        ⟨weeklySales, true, some rewardToAdd⟩)
    else
      (db, ⟨weeklySales, false, some rewardToAdd⟩)

/-! ## Order state machine -/

/-- Errors of `POST /api/orders/request` (`src/routes/orders.js`
lines 27-236) that the handler reports without mutating anything. -/
inductive CreateErr where
  | invalidAmount
  | invalidQuantity
  | orderTooLarge
  | userNotFound
  | insufficientPoints
deriving DecidableEq

/-- `POST /api/orders/request` (`src/routes/orders.js` lines 27-236):
validate the package and quantity, cap the total, check the balance,
then in one transaction insert the PENDING order, deduct the points and
append the DEDUCTED ledger entry.  An `error` result models the handler
returning without mutation (or rolling back). -/
def createOrder (db : DB) (userId diamondAmount quantity : ℕ)
    (orderId : ℕ) (orderNumber : String) (now : ℤ) : Except CreateErr DB :=
  if ¬ diamondAmount ∈ DIAMOND_PACKAGES then .error .invalidAmount
  else if ¬ (1 ≤ quantity ∧ quantity ≤ 100) then .error .invalidQuantity
  else
    let totalDiamonds := diamondAmount * quantity
    if totalDiamonds > 1000000 then .error .orderTooLarge
    else
      let pointsNeeded := totalDiamonds
      match db.users userId with
      | none => .error .userNotFound
      | some row =>
          if row.points_balance < (pointsNeeded : ℚ) then .error .insufficientPoints
          else .ok
            { db with
                users := db.bumpBalance userId (-(pointsNeeded : ℚ))
                orders := db.orders ++
                  [⟨orderId, orderNumber, userId, diamondAmount, quantity,
                    pointsNeeded, OrderStatus.PENDING, now⟩]
                transactions := db.transactions ++
                  [⟨userId, (pointsNeeded : ℚ), TxKind.DEDUCTED,
                    ⟨"Diamond request: ".data ++ natChars quantity ++ "x ".data
                      ++ natChars diamondAmount ++ " diamonds (Order: ".data
                      ++ orderNumber.data ++ [')']⟩, none, now⟩] }

/-- The two admin-selectable target statuses of
`PATCH /api/orders/:orderId/status`. -/
inductive NewStatus where
  | COMPLETED
  | REJECTED
deriving DecidableEq

/-- Errors of `PATCH /api/orders/:orderId/status` (`src/routes/orders.js`
lines 371-504). -/
inductive TransErr where
  | notFound
  | notPending
deriving DecidableEq

/-- The target `orders.status` value. -/
def NewStatus.toStatus : NewStatus → OrderStatus
  | .COMPLETED => OrderStatus.COMPLETED
  | .REJECTED => OrderStatus.REJECTED

/-- The committed transaction of `PATCH /api/orders/:orderId/status`
(`src/routes/orders.js` lines 401-453): load the order; reject the
request when it is absent or not PENDING; otherwise update the status
and, for a rejection, refund exactly `points_used` to the order's owner
and append the matching REFUNDED ledger entry, all before commit. -/
def updateOrderStatus (db : DB) (orderId : ℕ) (newStatus : NewStatus)
    (adminId : ℕ) (now : ℤ) : Except TransErr DB :=
  match db.orders.find? fun o => decide (o.id = orderId) with
  | none => .error .notFound
  | some order =>
      if order.status ≠ OrderStatus.PENDING then .error .notPending
      else
        let db1 := { db with
          orders := db.orders.map fun o =>
            if o.id = orderId then { o with status := newStatus.toStatus } else o }
        match newStatus with
        | .REJECTED => .ok
            { db1 with
                users := db1.bumpBalance order.user_id (order.points_used : ℚ)
                transactions := db1.transactions ++
                  [⟨order.user_id, (order.points_used : ℚ), TxKind.REFUNDED,
                    "Order rejected: " ++ order.order_number, some adminId, now⟩] }
        | .COMPLETED => .ok db1

/-- The whole `PATCH /api/orders/:orderId/status` handler
(`src/routes/orders.js` lines 371-504): after the status transaction
commits, a completion additionally triggers
`calculateAndAddWeeklyReward` for the order's owner inside a
`try/catch`; `rewardThrows` models the reward computation throwing, in
which case the error is logged and swallowed.  The boolean in the result
is the 200 response (`message: Order ... successfully`). -/
def patchOrderStatus (db : DB) (orderId : ℕ) (newStatus : NewStatus)
    (adminId : ℕ) (now wkStart wkEnd rewardNow : ℤ) (rewardThrows : Bool) :
    Except TransErr (DB × Bool) :=
  match db.orders.find? fun o => decide (o.id = orderId) with
  | none => .error .notFound
  | some order =>
      match updateOrderStatus db orderId newStatus adminId now with
      | .error e => .error e
      | .ok db1 =>
          match newStatus with
          | .REJECTED => .ok (db1, true)
          | .COMPLETED =>
              if rewardThrows then .ok (db1, true)
              else .ok ((calculateAndAddWeeklyReward db1 order.user_id
                  wkStart wkEnd rewardNow).1, true)

/-! ## Admin point grant and point requests -/

/-- Errors of `POST /api/users/:userId/points` (`src/routes/users.js`
lines 792-931). -/
inductive AddPointsErr where
  | invalidAmount
  | userNotFound
  | adminAccount
deriving DecidableEq

/-- `POST /api/users/:userId/points` (`src/routes/users.js`
lines 792-931): an admin grants `amount` points (positive, at most
1,000,000) to a non-admin user; the balance update and the ADDED ledger
entry (defaulting the description to `Quick Store`) are one
transaction. -/
def addPoints (db : DB) (userId : ℕ) (amount : ℕ) (description : Option String)
    (adminId : ℕ) (now : ℤ) : Except AddPointsErr DB :=
  if amount = 0 ∨ amount > 1000000 then .error .invalidAmount
  else
    match db.users userId with
    | none => .error .userNotFound
    | some row =>
        if row.role = Role.ADMIN then .error .adminAccount
        else .ok
          { db with
              users := db.bumpBalance userId (amount : ℚ)
              transactions := db.transactions ++
                [⟨userId, (amount : ℚ), TxKind.ADDED,
                  description.getD "Quick Store", some adminId, now⟩] }

/-- The admin's decision on a point request. -/
inductive ReqAction where
  | approve
  | reject
deriving DecidableEq

/-- Errors of `PATCH /api/users/point-requests/:requestId`
(`src/routes/users.js` lines 1242-1339). -/
inductive ReqErr where
  | notFound
deriving DecidableEq

/-- `PATCH /api/users/point-requests/:requestId` (`src/routes/users.js`
lines 1242-1339): load the PENDING request joined with its user;
approving adds `requested_amount` to the user's balance, appends the
matching ADDED ledger entry and marks the request APPROVED; rejecting
only marks it REJECTED. -/
def processPointRequest (db : DB) (requestId : ℕ) (action : ReqAction)
    (adminId : ℕ) (now : ℤ) : Except ReqErr DB :=
  match db.requests.find? fun r =>
      decide (r.id = requestId) && decide (r.status = ReqStatus.PENDING) with
  | none => .error .notFound
  | some req =>
      match db.users req.user_id with
      | none => .error .notFound
      | some _ =>
          match action with
          | .approve => .ok
              { db with
                  users := db.bumpBalance req.user_id (req.requested_amount : ℚ)
                  transactions := db.transactions ++
                    [⟨req.user_id, (req.requested_amount : ℚ), TxKind.ADDED,
                      ⟨"Point request approved (Request #".data
                        ++ natChars requestId ++ [')']⟩, some adminId, now⟩]
                  requests := db.requests.map fun r =>
                    if r.id = requestId then { r with status := ReqStatus.APPROVED } else r }
          | .reject => .ok
              { db with
                  requests := db.requests.map fun r =>
                    if r.id = requestId then { r with status := ReqStatus.REJECTED } else r }

/-! ## The ledger/balance invariant -/

/-- The sign convention of the ledger: ADDED and REFUNDED increase the
balance, DEDUCTED decreases it. -/
def signedAmount (e : TxEntry) : ℚ :=
  match e.transaction_type with
  | TxKind.ADDED => e.amount
  | TxKind.REFUNDED => e.amount
  | TxKind.DEDUCTED => -e.amount

/-- Signed sum of a user's ledger entries. -/
def ledgerSum (l : List TxEntry) (userId : ℕ) : ℚ :=
  ((l.filter fun e => decide (e.user_id = userId)).map signedAmount).sum

/-- Every existing user's `points_balance` equals the signed sum of that
user's ledger entries. -/
def BalanceInv (db : DB) : Prop :=
  ∀ u row, db.users u = some row → row.points_balance = ledgerSum db.transactions u

/-- One committed balance-affecting operation of the system: order
creation, an order status transition (rejection refund / completion),
a weekly reward reconciliation, an admin point grant, or the processing
of a point request. -/
inductive Step : DB → DB → Prop
  | create {db db' : DB} (userId diamondAmount quantity orderId : ℕ)
      (orderNumber : String) (now : ℤ)
      (h : createOrder db userId diamondAmount quantity orderId orderNumber now = .ok db') :
      Step db db'
  | transition {db db' : DB} (orderId : ℕ) (newStatus : NewStatus)
      (adminId : ℕ) (now : ℤ)
      (h : updateOrderStatus db orderId newStatus adminId now = .ok db') :
      Step db db'
  | reconcile (db : DB) (userId : ℕ) (wkStart wkEnd now : ℤ) :
      Step db (calculateAndAddWeeklyReward db userId wkStart wkEnd now).1
  | grant {db db' : DB} (userId amount : ℕ) (description : Option String)
      (adminId : ℕ) (now : ℤ)
      (h : addPoints db userId amount description adminId now = .ok db') :
      Step db db'
  | request {db db' : DB} (requestId : ℕ) (action : ReqAction)
      (adminId : ℕ) (now : ℤ)
      (h : processPointRequest db requestId action adminId now = .ok db') :
      Step db db'

/-! ## Arithmetic lemmas -/

/-- Rounding an integer is the identity. -/
theorem jsRound_intCast (k : ℤ) : jsRound (k : ℚ) = k := by
  rw [jsRound_eq_floor]
  rw [show ((k : ℚ) + 1/2) = (1/2 : ℚ) + k by ring]
  rw [Int.floor_add_int]
  norm_num

/-- `Math.round` of a nonnegative number is nonnegative. -/
theorem jsRound_nonneg {x : ℚ} (hx : 0 ≤ x) : 0 ≤ jsRound x := by
  rw [jsRound_eq_floor]
  positivity

/-- Rounding to two decimals fixes every multiple of `1/100`. -/
theorem round2_cents (k : ℤ) : round2 ((k : ℚ) / 100) = (k : ℚ) / 100 := by
  rw [round2, show ((k : ℚ) / 100 * 100) = (k : ℚ) by ring, jsRound_intCast]

/-- `round2` of a nonnegative number is nonnegative. -/
theorem round2_nonneg {x : ℚ} (hx : 0 ≤ x) : 0 ≤ round2 x := by
  have : (0:ℤ) ≤ jsRound (x * 100) := jsRound_nonneg (by positivity)
  rw [round2]
  positivity

/-- One tier term is nonnegative. -/
theorem tier_term_nonneg (t r : ℚ) (hr : 0 ≤ r) :
    0 ≤ if t > 0 then t * r else 0 := by
  split_ifs with h
  · exact mul_nonneg (le_of_lt h) hr
  · exact le_refl 0

/-- The raw tier sum is nonnegative. -/
theorem tierRewardRaw_nonneg {s : ℚ} : 0 ≤ tierRewardRaw s := by
  rw [tierRewardRaw]
  repeat' apply add_nonneg
  all_goals split_ifs
  all_goals first
    | exact le_refl 0
    | exact tier_term_nonneg _ _ (by norm_num)

/-- The rounded reward is nonnegative. -/
theorem computeReward_nonneg {s : ℚ} : 0 ≤ computeReward s :=
  round2_nonneg tierRewardRaw_nonneg

/-- The rounded reward is a multiple of `1/100`, written explicitly. -/
theorem computeReward_eq_cents (s : ℚ) :
    computeReward s = ((jsRound (tierRewardRaw s * 100) : ℤ) : ℚ) / 100 := rfl

/-- `round2` fixes a computed reward. -/
theorem round2_computeReward (s : ℚ) : round2 (computeReward s) = computeReward s := by
  rw [computeReward_eq_cents, round2_cents]

/-! ## Digit-string lemmas: the marker round-trip -/

/-- Value of a little-endian digit list. -/
def ofDigitsRevNat : List ℕ → ℕ
  | [] => 0
  | d :: ds => d + 10 * ofDigitsRevNat ds

/-- All digits produced by `natDigitsRevAux` are below 10. -/
theorem natDigitsRevAux_lt (fuel n : ℕ) : ∀ d ∈ natDigitsRevAux fuel n, d < 10 := by
  induction fuel generalizing n with
  | zero =>
      intro d hd
      simp only [natDigitsRevAux, List.mem_singleton] at hd
      omega
  | succ fuel ih =>
      intro d hd
      simp only [natDigitsRevAux] at hd
      split at hd
      · simp only [List.mem_singleton] at hd; omega
      · rcases List.mem_cons.mp hd with h | h
        · omega
        · exact ih _ d h

/-- With sufficient fuel the digits evaluate back to the number. -/
theorem natDigitsRevAux_val (fuel n : ℕ) (h : n ≤ fuel) :
    ofDigitsRevNat (natDigitsRevAux fuel n) = n := by
  induction fuel generalizing n with
  | zero =>
      have : n = 0 := by omega
      subst this
      simp [natDigitsRevAux, ofDigitsRevNat]
  | succ fuel ih =>
      simp only [natDigitsRevAux]
      split
      · simp [ofDigitsRevNat]
      · rw [ofDigitsRevNat, ih (n / 10) (by omega)]
        omega

/-- All digits of `natDigitsRev` are below 10. -/
theorem natDigitsRev_lt (n : ℕ) : ∀ d ∈ natDigitsRev n, d < 10 :=
  natDigitsRevAux_lt n n

/-- The digits of `natDigitsRev` evaluate back to the number. -/
theorem natDigitsRev_val (n : ℕ) : ofDigitsRevNat (natDigitsRev n) = n :=
  natDigitsRevAux_val n n le_rfl

/-- `natDigitsRev` never returns the empty list. -/
theorem natDigitsRev_ne_nil (n : ℕ) : natDigitsRev n ≠ [] := by
  rw [natDigitsRev]
  cases n with
  | zero => simp [natDigitsRevAux]
  | succ m =>
      simp only [natDigitsRevAux]
      split <;> simp

/-- Reading a formatted digit back. -/
theorem chDigit_digitCh {d : ℕ} (h : d < 10) : chDigit (digitCh d) = d := by
  interval_cases d <;> rfl

/-- Formatted digits satisfy the digit test. -/
theorem isDigitCh_digitCh {d : ℕ} (h : d < 10) : isDigitCh (digitCh d) = true := by
  interval_cases d <;> rfl

/-- Formatted digits satisfy the `[\d.]` test. -/
theorem isTokCh_digitCh {d : ℕ} (h : d < 10) : isTokCh (digitCh d) = true := by
  interval_cases d <;> rfl

/-- A space terminates a `[\d.]+` run. -/
theorem isTokCh_space : isTokCh ' ' = false := rfl

/-- A dot is a `[\d.]` character. -/
theorem isTokCh_dot : isTokCh '.' = true := rfl

/-- A dot is not a digit. -/
theorem isDigitCh_dot : isDigitCh '.' = false := rfl

/-- Folding the digit accumulator across an appended digit. -/
theorem digitsVal_append_single (l : List Char) (c : Char) :
    digitsVal (l ++ [c]) = 10 * digitsVal l + chDigit c := by
  simp [digitsVal, List.foldl_append]

/-- Big-endian reading of reversed formatted digits recovers the
little-endian value. -/
theorem digitsVal_reverse_map (l : List ℕ) (h : ∀ d ∈ l, d < 10) :
    digitsVal ((l.reverse).map digitCh) = ofDigitsRevNat l := by
  induction l with
  | nil => rfl
  | cons d ds ih =>
      rw [List.reverse_cons, List.map_append, List.map_singleton,
        digitsVal_append_single, ih fun x hx => h x (List.mem_cons_of_mem _ hx),
        chDigit_digitCh (h d (List.mem_cons_self d ds)), ofDigitsRevNat]
      ring

/-- Reading back `natChars`. -/
theorem digitsVal_natChars (n : ℕ) : digitsVal (natChars n) = n := by
  rw [natChars, digitsVal_reverse_map _ (natDigitsRev_lt n), natDigitsRev_val]

/-- Every character of `natChars` is a digit. -/
theorem natChars_all_digit (n : ℕ) : ∀ c ∈ natChars n, isDigitCh c = true := by
  intro c hc
  rw [natChars] at hc
  rcases List.mem_map.mp hc with ⟨d, hd, rfl⟩
  exact isDigitCh_digitCh (natDigitsRev_lt n d (List.mem_reverse.mp hd))

/-- `natChars` is never empty. -/
theorem natChars_ne_nil (n : ℕ) : natChars n ≠ [] := by
  rw [natChars]
  simp [natDigitsRev_ne_nil n]

/-- `takeWhile` of a satisfying list followed by a failing character. -/
theorem takeWhile_append_cons (p : Char → Bool) (l1 : List Char) (c : Char)
    (l2 : List Char) (h1 : ∀ x ∈ l1, p x = true) (h2 : p c = false) :
    (l1 ++ c :: l2).takeWhile p = l1 := by
  induction l1 with
  | nil => simp [List.takeWhile, h2]
  | cons x xs ih =>
      rw [List.cons_append, List.takeWhile_cons, h1 x (List.mem_cons_self x xs)]
      simp [ih fun y hy => h1 y (List.mem_cons_of_mem _ hy)]

/-- `takeWhile` of an entirely satisfying list. -/
theorem takeWhile_all (p : Char → Bool) (l : List Char)
    (h : ∀ x ∈ l, p x = true) : l.takeWhile p = l := by
  induction l with
  | nil => rfl
  | cons x xs ih =>
      rw [List.takeWhile_cons, h x (List.mem_cons_self x xs)]
      simp [ih fun y hy => h y (List.mem_cons_of_mem _ hy)]

/-- Both characters of `twoDigChars m` are digits when `m < 100`. -/
theorem twoDigChars_all_digit {m : ℕ} (h : m < 100) :
    ∀ c ∈ twoDigChars m, isDigitCh c = true := by
  intro c hc
  rw [twoDigChars] at hc
  simp only [List.mem_cons, List.not_mem_nil, or_false] at hc
  rcases hc with rfl | rfl
  · exact isDigitCh_digitCh (by omega)
  · exact isDigitCh_digitCh (by omega)

/-- Reading back `twoDigChars`. -/
theorem digitsVal_twoDigChars {m : ℕ} (h : m < 100) :
    digitsVal (twoDigChars m) = m := by
  rw [twoDigChars]
  show List.foldl _ 0 _ = m
  rw [List.foldl_cons, List.foldl_cons, List.foldl_nil,
    chDigit_digitCh (show m / 10 < 10 by omega), chDigit_digitCh (show m % 10 < 10 by omega)]
  omega

/-- Every character of `fixed2Chars` is matched by `[\d.]`. -/
theorem fixed2Chars_all_tok (k : ℕ) : ∀ c ∈ fixed2Chars k, isTokCh c = true := by
  intro c hc
  rw [fixed2Chars] at hc
  rcases List.mem_append.mp hc with hc | hc
  · rw [isTokCh, natChars_all_digit _ _ hc, Bool.true_or]
  · rcases List.mem_cons.mp hc with rfl | hc2
    · exact isTokCh_dot
    · rw [isTokCh, twoDigChars_all_digit (Nat.mod_lt _ (by omega)) _ hc2, Bool.true_or]

/-- `fixed2Chars` is never empty. -/
theorem fixed2Chars_ne_nil (k : ℕ) : fixed2Chars k ≠ [] := by
  rw [fixed2Chars]
  intro h
  rcases List.append_eq_nil.mp h with ⟨h1, -⟩
  exact natChars_ne_nil _ h1

/-- `parseFloat` reads a `toFixed(2)` rendering back exactly. -/
theorem parseFloatTok_fixed2 (k : ℕ) :
    parseFloatTok (fixed2Chars k) = some ((k : ℚ) / 100) := by
  have hm : k % 100 < 100 := Nat.mod_lt _ (by omega)
  have hint : (fixed2Chars k).takeWhile isDigitCh = natChars (k / 100) := by
    rw [fixed2Chars]
    exact takeWhile_append_cons _ _ _ _ (natChars_all_digit _) isDigitCh_dot
  have hdrop : (fixed2Chars k).drop (natChars (k / 100)).length
      = '.' :: twoDigChars (k % 100) := by
    rw [fixed2Chars]
    exact List.drop_left _ _
  have hfrac : (twoDigChars (k % 100)).takeWhile isDigitCh = twoDigChars (k % 100) :=
    takeWhile_all _ _ (twoDigChars_all_digit hm)
  have hfraclen : (twoDigChars (k % 100)).length = 2 := rfl
  have hempty : (twoDigChars (k % 100)).isEmpty = false := rfl
  rw [parseFloatTok]
  simp only [hint, hdrop, hfrac, hfraclen, hempty]
  rw [if_neg (by simp)]
  rw [digitsVal_natChars, digitsVal_twoDigChars hm]
  have hcast : ((k / 100 : ℕ) : ℚ) * 100 + ((k % 100 : ℕ) : ℚ) = (k : ℚ) := by
    have h2 : ((100 * (k / 100) + k % 100 : ℕ) : ℚ) = (k : ℚ) := by
      rw [Nat.div_add_mod k 100]
    push_cast at h2
    linarith
  have hval : ((k / 100 : ℕ) : ℚ) + ((k % 100 : ℕ) : ℚ) / 10 ^ (2:ℕ) = (k : ℚ) / 100 := by
    rw [show ((10:ℚ) ^ (2:ℕ)) = 100 by norm_num]
    field_simp
    linarith
  rw [hval]

/-- A list starts with itself followed by anything. -/
theorem startsWithChars_append_self (l r : List Char) :
    startsWithChars l (l ++ r) = true := by
  induction l with
  | nil => rfl
  | cons c cs ih => simpa [startsWithChars] using ih

/-- Unfolding `markerCapture` on a cons cell. -/
theorem markerCapture_cons (c : Char) (rest : List Char) :
    markerCapture (c :: rest) =
      if startsWithChars markerPat (c :: rest) then
        (let tok := ((c :: rest).drop markerPat.length).takeWhile isTokCh
         if tok.isEmpty then markerCapture rest else some tok)
      else markerCapture rest := rfl

/-- The first regex match in a string that begins with the literal marker
captures the maximal `[\d.]` run right after it. -/
theorem markerCapture_marker_append (tail : List Char)
    (hne : tail.takeWhile isTokCh ≠ []) :
    markerCapture (markerPat ++ tail) = some (tail.takeWhile isTokCh) := by
  show markerCapture ('W' :: ("eekly Sale Reward: ".data ++ tail)) = _
  rw [markerCapture_cons]
  rw [show ('W' :: ("eekly Sale Reward: ".data ++ tail)) = markerPat ++ tail from rfl]
  rw [startsWithChars_append_self, if_pos rfl]
  rw [List.drop_left]
  cases h : tail.takeWhile isTokCh with
  | nil => exact absurd h hne
  | cons t ts => simp [List.isEmpty]

/-- On a reward description the regex capture is exactly the `toFixed(2)`
rendering of the stored total. -/
theorem markerCapture_rewardDescChars (k sales : ℕ) :
    markerCapture (rewardDescChars k sales) = some (fixed2Chars k) := by
  have hassoc : rewardDescChars k sales
      = markerPat ++ (fixed2Chars k ++ (" (Sales: ".data
          ++ (natLocaleChars sales ++ [')']))) := by
    rw [rewardDescChars]
    simp only [List.append_assoc]
  rw [hassoc]
  have htok : (fixed2Chars k ++ (" (Sales: ".data
      ++ (natLocaleChars sales ++ [')']))).takeWhile isTokCh = fixed2Chars k := by
    show (fixed2Chars k ++ (' ' :: ("(Sales: ".data
        ++ (natLocaleChars sales ++ [')'])))).takeWhile isTokCh = fixed2Chars k
    exact takeWhile_append_cons _ _ _ _ (fixed2Chars_all_tok k) isTokCh_space
  rw [markerCapture_marker_append _ (by rw [htok]; exact fixed2Chars_ne_nil k), htok]

/-- Parsing a reward description recovers the total that was stored. -/
theorem existingAmountOf_rewardDesc (k sales : ℕ) :
    existingAmountOf (rewardDesc k sales) = some ((k : ℚ) / 100) := by
  rw [existingAmountOf]
  rw [show (rewardDesc k sales).data = rewardDescChars k sales from rfl]
  rw [markerCapture_rewardDescChars]
  exact parseFloatTok_fixed2 k

/-- A reward description passes the `LIKE 'Weekly Sale Reward%'` filter. -/
theorem startsWith_likePat_rewardDescChars (k sales : ℕ) :
    startsWithChars likePat (rewardDescChars k sales) = true := by
  have h1 : rewardDescChars k sales
      = likePat ++ (": ".data ++ (fixed2Chars k ++ (" (Sales: ".data
          ++ (natLocaleChars sales ++ [')'])))) := by
    rw [rewardDescChars]
    simp only [List.append_assoc]
    rfl
  rw [h1]
  exact startsWithChars_append_self _ _

/-! ## Lemmas about the latest-entry fold and the ledger sum -/

/-- Folding `pickLater` over a list ending in an entry at least as recent
as everything before it yields that entry. -/
theorem foldl_pickLater_last (l : List TxEntry) (e : TxEntry) :
    ∀ acc : Option TxEntry, (∀ b ∈ l, b.created_at ≤ e.created_at) →
      (∀ b, acc = some b → b.created_at ≤ e.created_at) →
      (l ++ [e]).foldl pickLater acc = some e := by
  induction l with
  | nil =>
      intro acc _ hacc
      rw [List.nil_append, List.foldl_cons, List.foldl_nil]
      cases acc with
      | none => rfl
      | some b => rw [pickLater, if_pos (hacc b rfl)]
  | cons x xs ih =>
      intro acc hl hacc
      rw [List.cons_append, List.foldl_cons]
      refine ih (pickLater acc x) (fun b hb => hl b (List.mem_cons_of_mem _ hb)) ?_
      intro b hb
      cases acc with
      | none =>
          rw [pickLater] at hb
          obtain rfl : x = b := by injection hb
          exact hl x (List.mem_cons_self x xs)
      | some a =>
          rw [pickLater] at hb
          split at hb
          · obtain rfl : x = b := by injection hb
            exact hl x (List.mem_cons_self x xs)
          · obtain rfl : a = b := by injection hb
            exact hacc a rfl

/-- The filter predicate of `latestRewardEntry`, named for reuse. -/
def rewardEntryTest (userId : ℕ) (wkStart : ℤ) (e : TxEntry) : Bool :=
  decide (e.user_id = userId) && decide (e.transaction_type = TxKind.ADDED)
    && startsWithChars likePat e.description.data
    && decide (wkStart ≤ e.created_at)

/-- `latestRewardEntry` unfolded through the named predicate. -/
theorem latestRewardEntry_eq (db : DB) (userId : ℕ) (wkStart : ℤ) :
    latestRewardEntry db userId wkStart
      = (db.transactions.filter (rewardEntryTest userId wkStart)).foldl pickLater none := rfl

/-- Appending a ledger entry that passes the reward filter and is at
least as recent as every earlier entry makes it the entry the
idempotency lookup finds. -/
theorem latestRewardEntry_append_fresh (db db' : DB) (userId : ℕ) (wkStart : ℤ)
    (fresh : TxEntry)
    (htx : db'.transactions = db.transactions ++ [fresh])
    (hpass : rewardEntryTest userId wkStart fresh = true)
    (hlate : ∀ b ∈ db.transactions, b.created_at ≤ fresh.created_at) :
    latestRewardEntry db' userId wkStart = some fresh := by
  rw [latestRewardEntry_eq, htx, List.filter_append]
  rw [show List.filter (rewardEntryTest userId wkStart) [fresh] = [fresh] by
    simp [hpass]]
  exact foldl_pickLater_last _ _ none
    (fun b hb => hlate b (List.mem_of_mem_filter hb))
    (fun b hb => by cases hb)

/-- The ledger sum splits over appended entry lists. -/
theorem ledgerSum_append (l1 l2 : List TxEntry) (u : ℕ) :
    ledgerSum (l1 ++ l2) u = ledgerSum l1 u + ledgerSum l2 u := by
  rw [ledgerSum, ledgerSum, ledgerSum, List.filter_append, List.map_append,
    List.sum_append]

/-- The ledger sum of a single entry. -/
theorem ledgerSum_single (e : TxEntry) (u : ℕ) :
    ledgerSum [e] u = if e.user_id = u then signedAmount e else 0 := by
  by_cases h : e.user_id = u <;> simp [ledgerSum, h]

/-! ## Characterization of the reconciler -/

/-- `rewardDelta` is nonnegative whenever the computed total is. -/
theorem rewardDelta_nonneg (total : ℚ) (ex : Option TxEntry) (h : 0 ≤ total) :
    0 ≤ rewardDelta total ex := by
  rw [rewardDelta.eq_def]
  apply round2_nonneg
  cases ex with
  | none => exact h
  | some e =>
      cases hx : existingAmountOf e.description with
      | none =>
          simp only [hx]
          exact le_refl 0
      | some x =>
          simp only [hx]
          split <;> [linarith; exact le_refl 0]

/-- `round2 0 = 0`. -/
theorem round2_zero : round2 0 = 0 := by
  have := round2_cents 0
  simpa using this

/-- The fresh entry inserted by a positive reconciliation. -/
def rewardEntryOf (u : ℕ) (S : ℕ) (delta : ℚ) (now : ℤ) : TxEntry :=
  ⟨u, delta, TxKind.ADDED,
    rewardDesc (jsRound (tierRewardRaw (S : ℚ) * 100)).toNat S, none, now⟩

/-- The post-threshold part of the reconciler, with the `let` chain
resolved through `computeReward` and `rewardDelta`. -/
theorem reconcile_main (db : DB) (u : ℕ) (ws we now : ℤ)
    (h : ¬ weeklySalesOf db u ws we < 4500) :
    calculateAndAddWeeklyReward db u ws we now
      = (if rewardDelta (computeReward (weeklySalesOf db u ws we : ℚ))
            (latestRewardEntry db u ws) > 0 then
          ({ db with
              users := db.bumpBalance u
                (rewardDelta (computeReward (weeklySalesOf db u ws we : ℚ))
                  (latestRewardEntry db u ws))
              transactions := db.transactions ++
                [rewardEntryOf u (weeklySalesOf db u ws we)
                  (rewardDelta (computeReward (weeklySalesOf db u ws we : ℚ))
                    (latestRewardEntry db u ws)) now] },
            ⟨weeklySalesOf db u ws we, true,
              some (rewardDelta (computeReward (weeklySalesOf db u ws we : ℚ))
                (latestRewardEntry db u ws))⟩)
        else
          (db, ⟨weeklySalesOf db u ws we, false,
            some (rewardDelta (computeReward (weeklySalesOf db u ws we : ℚ))
              (latestRewardEntry db u ws))⟩)) := by
  rw [calculateAndAddWeeklyReward, if_neg h]
  rfl

/-- Below the 4500 threshold the reconciler changes nothing and reports
no reward. -/
theorem reconcile_below (db : DB) (u : ℕ) (ws we now : ℤ)
    (h : weeklySalesOf db u ws we < 4500) :
    calculateAndAddWeeklyReward db u ws we now
      = (db, ⟨weeklySalesOf db u ws we, false, none⟩) := by
  rw [calculateAndAddWeeklyReward, if_pos h]

/-- At or above the threshold with a zero delta the reconciler changes
nothing and reports `rewardAdded = false` with a zero amount. -/
theorem reconcile_zero_delta (db : DB) (u : ℕ) (ws we now : ℤ)
    (h : ¬ weeklySalesOf db u ws we < 4500)
    (hd : rewardDelta (computeReward (weeklySalesOf db u ws we : ℚ))
        (latestRewardEntry db u ws) = 0) :
    calculateAndAddWeeklyReward db u ws we now
      = (db, ⟨weeklySalesOf db u ws we, false, some 0⟩) := by
  rw [reconcile_main db u ws we now h, hd]
  rw [if_neg (lt_irrefl 0)]

/-- At or above the threshold with a positive delta the reconciler adds
the delta to the user's balance and appends the marker entry. -/
theorem reconcile_pos_delta (db : DB) (u : ℕ) (ws we now : ℤ)
    (h : ¬ weeklySalesOf db u ws we < 4500)
    (hd : rewardDelta (computeReward (weeklySalesOf db u ws we : ℚ))
        (latestRewardEntry db u ws) > 0) :
    calculateAndAddWeeklyReward db u ws we now
      = ({ db with
            users := db.bumpBalance u
              (rewardDelta (computeReward (weeklySalesOf db u ws we : ℚ))
                (latestRewardEntry db u ws))
            transactions := db.transactions ++
              [rewardEntryOf u (weeklySalesOf db u ws we)
                (rewardDelta (computeReward (weeklySalesOf db u ws we : ℚ))
                  (latestRewardEntry db u ws)) now] },
          ⟨weeklySalesOf db u ws we, true,
            some (rewardDelta (computeReward (weeklySalesOf db u ws we : ℚ))
              (latestRewardEntry db u ws))⟩) := by
  rw [reconcile_main db u ws we now h, if_pos hd]

/-- The reconciler never touches the order table. -/
theorem reconcile_orders (db : DB) (u : ℕ) (ws we now : ℤ) :
    (calculateAndAddWeeklyReward db u ws we now).1.orders = db.orders := by
  by_cases h : weeklySalesOf db u ws we < 4500
  · rw [reconcile_below db u ws we now h]
  · rw [reconcile_main db u ws we now h]
    split
    · rfl
    · rfl

/-! ## Band characterizations of the tier reward -/

/-- At or below the first threshold the reward is zero. -/
theorem computeReward_band0 (s : ℚ) (h : s ≤ 4500) : computeReward s = 0 := by
  simp only [computeReward, tierRewardRaw]
  split_ifs <;> first
    | linarith
    | (rw [show (0:ℚ) + 0 + 0 + 0 = 0 by norm_num]; exact round2_zero)

/-- In the first band only the excess over 4500 is rewarded, at 1%. -/
theorem computeReward_band1 (s : ℚ) (h1 : 4500 < s) (h2 : s ≤ 18000) :
    computeReward s = round2 ((s - 4500) * (1/100)) := by
  have hmin1 : min s 18000 = s := min_eq_left h2
  simp only [computeReward, tierRewardRaw, hmin1]
  split_ifs <;> first | (congr 1; ring1) | linarith

/-- In the second band the first band contributes its fixed 135 and the
excess over 18000 is rewarded at 1.6%. -/
theorem computeReward_band2 (s : ℚ) (h1 : 18000 < s) (h2 : s ≤ 45000) :
    computeReward s = round2 (135 + (s - 18000) * (16/1000)) := by
  have hmin1 : min s 18000 = 18000 := min_eq_right (by linarith)
  have hmin2 : min s 45000 = s := min_eq_left h2
  simp only [computeReward, tierRewardRaw, hmin1, hmin2]
  split_ifs <;> first | (congr 1; ring1) | linarith

/-- In the third band the lower bands contribute 567 and the excess over
45000 is rewarded at 2.1%. -/
theorem computeReward_band3 (s : ℚ) (h1 : 45000 < s) (h2 : s ≤ 90000) :
    computeReward s = round2 (567 + (s - 45000) * (21/1000)) := by
  have hmin1 : min s 18000 = 18000 := min_eq_right (by linarith)
  have hmin2 : min s 45000 = 45000 := min_eq_right (by linarith)
  have hmin3 : min s 90000 = s := min_eq_left h2
  simp only [computeReward, tierRewardRaw, hmin1, hmin2, hmin3]
  split_ifs <;> first | (congr 1; ring1) | linarith

/-- Above the last threshold the lower bands contribute 1512 and the
excess over 90000 is rewarded at 2.6%. -/
theorem computeReward_band4 (s : ℚ) (h1 : 90000 < s) :
    computeReward s = round2 (1512 + (s - 90000) * (26/1000)) := by
  have hmin1 : min s 18000 = 18000 := min_eq_right (by linarith)
  have hmin2 : min s 45000 = 45000 := min_eq_right (by linarith)
  have hmin3 : min s 90000 = 90000 := min_eq_right (by linarith)
  simp only [computeReward, tierRewardRaw, hmin1, hmin2, hmin3]
  split_ifs <;> first | (congr 1; ring1) | linarith

/-! ## The claims -/

/-- C4: the tier reward computed by the reconciler is marginal over the
bands 4500/18000/45000/90000 at rates 1%/1.6%/2.1%/2.6% with half-up
rounding to 2 decimals, and in particular `computeReward 4500 = 0`,
`computeReward 18000 = 135.00`, `computeReward 45000 = 567.00`,
`computeReward 90000 = 1512.00` and `computeReward 100000 = 1772.00`. -/
theorem C4_tier_reward_values :
    computeReward 4500 = 0 ∧ computeReward 18000 = 135
      ∧ computeReward 45000 = 567 ∧ computeReward 90000 = 1512
      ∧ computeReward 100000 = 1772
      ∧ (∀ s : ℚ, s ≤ 4500 → computeReward s = 0)
      ∧ (∀ s : ℚ, 4500 < s → s ≤ 18000 →
          computeReward s = round2 ((s - 4500) * (1/100)))
      ∧ (∀ s : ℚ, 18000 < s → s ≤ 45000 →
          computeReward s = round2 (135 + (s - 18000) * (16/1000)))
      ∧ (∀ s : ℚ, 45000 < s → s ≤ 90000 →
          computeReward s = round2 (567 + (s - 45000) * (21/1000)))
      ∧ (∀ s : ℚ, 90000 < s →
          computeReward s = round2 (1512 + (s - 90000) * (26/1000))) := by
  refine ⟨?_, ?_, ?_, ?_, ?_, computeReward_band0, computeReward_band1,
    computeReward_band2, computeReward_band3, computeReward_band4⟩ <;>
    norm_num [computeReward, round2, tierRewardRaw, jsRound_eq_floor]

/-- C4 witness: the values and the top band characterization at a
concrete sales figure. -/
theorem C4_tier_reward_values_witness :
    computeReward 100000 = 1772
      ∧ ((90000 : ℚ) < 100000
          ∧ computeReward 100000 = round2 (1512 + ((100000:ℚ) - 90000) * (26/1000))) :=
  ⟨C4_tier_reward_values.2.2.2.2.1,
    by norm_num,
    C4_tier_reward_values.2.2.2.2.2.2.2.2.2 100000 (by norm_num)⟩

/-- C10: the tier-reward computation inlined in the dashboard handler and
the one inside `calculateAndAddWeeklyReward` agree on every weekly sales
total: identical band edges, rates and 2-decimal rounding. -/
theorem C10_dashboard_matches_reconciler :
    ∀ weeklySales : ℚ, dashboardTierReward weeklySales = computeReward weeklySales :=
  fun _ => rfl

/-- C5: evaluated on a Thursday at 21:29 the period calculator returns a
week start seven days before the one returned at 21:30 the same day;
and every returned interval runs from a Thursday at 21:30:00 to exactly
seven days later at 21:30:00. -/
theorem C5_week_boundaries :
    (∀ d : ℤ, weekdayOf d = 4 →
        (getWeekBoundaries ⟨d, 21, 29⟩).startDay
          = (getWeekBoundaries ⟨d, 21, 30⟩).startDay - 7)
    ∧ (∀ dt : ColomboDT,
        (getWeekBoundaries dt).endDay = (getWeekBoundaries dt).startDay + 7
          ∧ weekdayOf (getWeekBoundaries dt).startDay = 4
          ∧ (getWeekBoundaries dt).startHour = 21
          ∧ (getWeekBoundaries dt).startMinute = 30
          ∧ (getWeekBoundaries dt).endHour = 21
          ∧ (getWeekBoundaries dt).endMinute = 30) := by
  constructor
  · intro d hd
    simp only [getWeekBoundaries, daysToSubtract, weekdayOf] at hd ⊢
    simp only [hd]
    norm_num
  · intro dt
    refine ⟨rfl, ?_, rfl, rfl, rfl, rfl⟩
    simp only [getWeekBoundaries, daysToSubtract, weekdayOf]
    split_ifs <;> omega

/-- C5 witness: day index 4 (a Thursday under the model's weekday
convention) at 21:29 and 21:30. -/
theorem C5_week_boundaries_witness :
    weekdayOf 4 = 4
      ∧ (getWeekBoundaries ⟨4, 21, 29⟩).startDay
          = (getWeekBoundaries ⟨4, 21, 30⟩).startDay - 7
      ∧ (getWeekBoundaries ⟨4, 21, 30⟩).endDay
          = (getWeekBoundaries ⟨4, 21, 30⟩).startDay + 7 :=
  ⟨by decide, C5_week_boundaries.1 4 (by decide),
    (C5_week_boundaries.2 ⟨4, 21, 30⟩).1⟩

/-- Status of the order with a given id after a status-map update. -/
theorem orders_map_status (orders : List Order) (orderId : ℕ) (st : OrderStatus) :
    ∀ o' ∈ orders.map (fun o =>
        if o.id = orderId then { o with status := st } else o),
      o'.id = orderId → o'.status = st := by
  intro o' ho' hid
  rcases List.mem_map.mp ho' with ⟨a, _, rfl⟩
  by_cases ha : a.id = orderId
  · rw [if_pos ha]
  · rw [if_neg ha] at hid ⊢
    exact absurd hid ha

/-- C6: rejecting a PENDING order refunds exactly `points_used` (the
stored original deduction) to the order's owner, appends the matching
REFUNDED ledger entry, and moves the order to REJECTED; a transition
attempted on an order that is not PENDING (COMPLETED or REJECTED) fails
with the conflict error `notPending`, and since the handler rolls back
and returns, no state change is produced (the operation yields no new
datastore). -/
theorem C6_reject_refund_and_terminal_guard :
    (∀ (db : DB) (orderId adminId : ℕ) (now : ℤ) (o : Order) (db' : DB),
        db.orders.find? (fun o' => decide (o'.id = orderId)) = some o →
        o.status = OrderStatus.PENDING →
        updateOrderStatus db orderId NewStatus.REJECTED adminId now = .ok db' →
        db'.users = db.bumpBalance o.user_id (o.points_used : ℚ)
          ∧ db'.transactions = db.transactions ++
              [⟨o.user_id, (o.points_used : ℚ), TxKind.REFUNDED,
                "Order rejected: " ++ o.order_number, some adminId, now⟩]
          ∧ (∀ o' ∈ db'.orders, o'.id = orderId → o'.status = OrderStatus.REJECTED))
    ∧ (∀ (db : DB) (orderId adminId : ℕ) (now : ℤ) (o : Order) (st : NewStatus),
        db.orders.find? (fun o' => decide (o'.id = orderId)) = some o →
        o.status ≠ OrderStatus.PENDING →
        updateOrderStatus db orderId st adminId now = .error TransErr.notPending) := by
  constructor
  · intro db orderId adminId now o db' hfind hpend hok
    rw [updateOrderStatus] at hok
    simp only [hfind] at hok
    rw [if_neg (by simp [hpend])] at hok
    injection hok with hok
    subst hok
    refine ⟨rfl, rfl, ?_⟩
    exact orders_map_status db.orders orderId _
  · intro db orderId adminId now o st hfind hpend
    rw [updateOrderStatus]
    simp only [hfind]
    rw [if_pos hpend]

/-- A one-user, one-PENDING-order database used by concrete instances. -/
def demoOrderPending : Order := ⟨1, "ORD-A", 7, 100, 2, 200, OrderStatus.PENDING, 0⟩

/-- The same order already COMPLETED. -/
def demoOrderCompleted : Order := ⟨1, "ORD-A", 7, 100, 2, 200, OrderStatus.COMPLETED, 0⟩

/-- The demo user table: user 7 with 500 points. -/
def demoUsers : ℕ → Option UserRow := fun u => if u = 7 then some ⟨500, Role.USER⟩ else none

/-- Demo database with the PENDING order. -/
def demoDB : DB := ⟨demoUsers, [demoOrderPending], [], []⟩

/-- Demo database with the COMPLETED order. -/
def demoDBdone : DB := ⟨demoUsers, [demoOrderCompleted], [], []⟩

/-- The state after the status-map update of a REJECTED transition. -/
def demoDB1 : DB :=
  { demoDB with orders := demoDB.orders.map fun o =>
      if o.id = 1 then { o with status := NewStatus.REJECTED.toStatus } else o }

/-- The state committed by rejecting the demo order. -/
def demoRejectedDB : DB :=
  { demoDB1 with
      users := demoDB1.bumpBalance demoOrderPending.user_id
        (demoOrderPending.points_used : ℚ)
      transactions := demoDB1.transactions ++
        [⟨demoOrderPending.user_id, (demoOrderPending.points_used : ℚ),
          TxKind.REFUNDED, "Order rejected: " ++ demoOrderPending.order_number,
          some 9, 3⟩] }

/-- C6 witness: rejecting the PENDING demo order refunds its
`points_used`, and rejecting it again once COMPLETED is a conflict. -/
theorem C6_reject_refund_and_terminal_guard_witness :
    (demoRejectedDB.users
        = demoDB.bumpBalance demoOrderPending.user_id (demoOrderPending.points_used : ℚ)
      ∧ demoRejectedDB.transactions = demoDB.transactions ++
          [⟨demoOrderPending.user_id, (demoOrderPending.points_used : ℚ),
            TxKind.REFUNDED, "Order rejected: " ++ demoOrderPending.order_number,
            some 9, 3⟩]
      ∧ (∀ o' ∈ demoRejectedDB.orders, o'.id = 1 → o'.status = OrderStatus.REJECTED))
    ∧ updateOrderStatus demoDBdone 1 NewStatus.REJECTED 9 3
        = .error TransErr.notPending :=
  ⟨C6_reject_refund_and_terminal_guard.1 demoDB 1 9 3 demoOrderPending demoRejectedDB
      rfl rfl rfl,
    C6_reject_refund_and_terminal_guard.2 demoDBdone 1 9 3 demoOrderCompleted
      NewStatus.REJECTED rfl (by decide)⟩

/-- C7: a create-order request with a valid package and quantity whose
user exists but holds fewer points than `diamondAmount * quantity` fails
with the insufficient-points error before any mutation: the operation
returns no new datastore, so no order row, no DEDUCTED entry and no
balance change survive. -/
theorem C7_insufficient_funds (db : DB)
    (userId diamondAmount quantity orderId : ℕ) (orderNumber : String)
    (now : ℤ) (row : UserRow)
    (hpk : diamondAmount ∈ DIAMOND_PACKAGES)
    (hq : 1 ≤ quantity ∧ quantity ≤ 100)
    (hcap : ¬ diamondAmount * quantity > 1000000)
    (hu : db.users userId = some row)
    (hbal : row.points_balance < ((diamondAmount * quantity : ℕ) : ℚ)) :
    createOrder db userId diamondAmount quantity orderId orderNumber now
      = .error CreateErr.insufficientPoints := by
  rw [createOrder]
  rw [if_neg (not_not_intro hpk), if_neg (not_not_intro hq)]
  rw [if_neg hcap]
  simp only [hu]
  rw [if_pos hbal]

/-- C7 witness: a user with 150 points ordering 2 × 100 diamonds. -/
theorem C7_insufficient_funds_witness :
    createOrder ⟨fun u => if u = 7 then some ⟨150, Role.USER⟩ else none, [], [], []⟩
        7 100 2 1 "ORD-B" 0
      = .error CreateErr.insufficientPoints :=
  C7_insufficient_funds _ 7 100 2 1 "ORD-B" 0 ⟨150, Role.USER⟩
    (by decide) (by decide) (by decide) rfl (by norm_num)

/-- C8: when completing a PENDING order succeeds and the subsequent
weekly-reward reconciliation throws, the handler still answers success,
the committed state is exactly the one with the order COMPLETED, and the
completion is not rolled back. -/
theorem C8_completion_survives_reward_failure (db db1 : DB)
    (orderId adminId : ℕ) (now wkStart wkEnd rewardNow : ℤ) (o : Order)
    (hfind : db.orders.find? (fun o' => decide (o'.id = orderId)) = some o)
    (hok : updateOrderStatus db orderId NewStatus.COMPLETED adminId now = .ok db1) :
    patchOrderStatus db orderId NewStatus.COMPLETED adminId now
        wkStart wkEnd rewardNow true = .ok (db1, true)
      ∧ (∀ o' ∈ db1.orders, o'.id = orderId → o'.status = OrderStatus.COMPLETED) := by
  constructor
  · rw [patchOrderStatus]
    simp only [hfind, hok, if_true]
  · have hshape : db1.orders = db.orders.map (fun o' =>
        if o'.id = orderId then { o' with status := OrderStatus.COMPLETED } else o') := by
      rw [updateOrderStatus] at hok
      simp only [hfind] at hok
      by_cases hpend : o.status = OrderStatus.PENDING
      · rw [if_neg (by simp [hpend])] at hok
        injection hok with hok
        rw [← hok]
        rfl
      · rw [if_pos hpend] at hok
        cases hok
    rw [hshape]
    exact orders_map_status db.orders orderId _

/-- The state committed by completing the demo order. -/
def demoCompletedDB : DB :=
  { demoDB with orders := demoDB.orders.map fun o =>
      if o.id = 1 then { o with status := NewStatus.COMPLETED.toStatus } else o }

/-- C8 witness: completing the pending demo order with the reward step
throwing still answers success on the committed COMPLETED state. -/
theorem C8_completion_survives_reward_failure_witness :
    patchOrderStatus demoDB 1 NewStatus.COMPLETED 9 3 0 100 4 true
        = .ok (demoCompletedDB, true)
      ∧ (∀ o' ∈ demoCompletedDB.orders, o'.id = 1 → o'.status = OrderStatus.COMPLETED) :=
  C8_completion_survives_reward_failure demoDB demoCompletedDB 1 9 3 0 100 4
    demoOrderPending rfl rfl

/-- A reward entry written by the reconciler passes its own idempotency
filter when its timestamp is in the period. -/
theorem rewardEntryTest_rewardEntryOf (u S : ℕ) (delta : ℚ) (ws now : ℤ)
    (h : ws ≤ now) :
    rewardEntryTest u ws (rewardEntryOf u S delta now) = true := by
  rw [rewardEntryTest, rewardEntryOf]
  simp [h, startsWith_likePat_rewardDescChars,
    show ∀ k s, (rewardDesc k s).data = rewardDescChars k s from fun _ _ => rfl]

/-- Parsing the description the reconciler wrote for sales total `S`
yields exactly `computeReward S`. -/
theorem existingAmountOf_rewardEntry (S sales : ℕ) :
    existingAmountOf (rewardDesc (jsRound (tierRewardRaw (S : ℚ) * 100)).toNat sales)
      = some (computeReward (S : ℚ)) := by
  rw [existingAmountOf_rewardDesc]
  congr 1
  rw [computeReward_eq_cents]
  have hnn : 0 ≤ jsRound (tierRewardRaw (S : ℚ) * 100) :=
    jsRound_nonneg (mul_nonneg tierRewardRaw_nonneg (by norm_num))
  congr 1
  rw [show (((jsRound (tierRewardRaw (S : ℚ) * 100)).toNat : ℕ) : ℚ)
      = (((jsRound (tierRewardRaw (S : ℚ) * 100)).toNat : ℤ) : ℚ) by norm_cast]
  rw [Int.toNat_of_nonneg hnn]

/-- The delta against an entry whose marker parses to at least the
current total is zero. -/
theorem rewardDelta_of_parse_ge (total x : ℚ) (e : TxEntry)
    (hx : existingAmountOf e.description = some x) (hge : total ≤ x) :
    rewardDelta total (some e) = 0 := by
  rw [rewardDelta.eq_def]
  simp only [hx]
  rw [if_neg (not_lt.mpr hge)]
  exact round2_zero

/-- C2: calling the reconciler twice in immediate succession (no order or
ledger activity in between, timestamps weakly increasing and inside the
period) yields `rewardAdded = false` on the second call, and the second
call leaves the datastore — balance and ledger included — exactly as the
first call left it. -/
theorem C2_reconcile_idempotent (db : DB) (u : ℕ) (ws we now1 now2 : ℤ)
    (hstart : ws ≤ now1)
    (hmono : ∀ e ∈ db.transactions, e.created_at ≤ now1) :
    (calculateAndAddWeeklyReward (calculateAndAddWeeklyReward db u ws we now1).1
        u ws we now2).2.rewardAdded = false
    ∧ (calculateAndAddWeeklyReward (calculateAndAddWeeklyReward db u ws we now1).1
        u ws we now2).1 = (calculateAndAddWeeklyReward db u ws we now1).1 := by
  by_cases hS : weeklySalesOf db u ws we < 4500
  · rw [reconcile_below db u ws we now1 hS]
    show (calculateAndAddWeeklyReward db u ws we now2).2.rewardAdded = false
      ∧ (calculateAndAddWeeklyReward db u ws we now2).1 = db
    rw [reconcile_below db u ws we now2 hS]
    exact ⟨rfl, rfl⟩
  · by_cases hd : rewardDelta (computeReward (weeklySalesOf db u ws we : ℚ))
        (latestRewardEntry db u ws) > 0
    · have h1 := reconcile_pos_delta db u ws we now1 hS hd
      have htx1 : (calculateAndAddWeeklyReward db u ws we now1).1.transactions
          = db.transactions ++
            [rewardEntryOf u (weeklySalesOf db u ws we)
              (rewardDelta (computeReward (weeklySalesOf db u ws we : ℚ))
                (latestRewardEntry db u ws)) now1] := by
        rw [h1]
      have horders1 : (calculateAndAddWeeklyReward db u ws we now1).1.orders
          = db.orders := reconcile_orders db u ws we now1
      have hS1 : weeklySalesOf (calculateAndAddWeeklyReward db u ws we now1).1 u ws we
          = weeklySalesOf db u ws we := by
        rw [weeklySalesOf, weeklySalesOf, horders1]
      have hlatest1 : latestRewardEntry (calculateAndAddWeeklyReward db u ws we now1).1 u ws
          = some (rewardEntryOf u (weeklySalesOf db u ws we)
              (rewardDelta (computeReward (weeklySalesOf db u ws we : ℚ))
                (latestRewardEntry db u ws)) now1) :=
        latestRewardEntry_append_fresh db _ u ws _ htx1
          (rewardEntryTest_rewardEntryOf _ _ _ _ _ hstart) hmono
      have hS1' : ¬ weeklySalesOf (calculateAndAddWeeklyReward db u ws we now1).1 u ws we
          < 4500 := by rw [hS1]; exact hS
      have hd2 : rewardDelta
          (computeReward (weeklySalesOf (calculateAndAddWeeklyReward db u ws we now1).1
            u ws we : ℚ))
          (latestRewardEntry (calculateAndAddWeeklyReward db u ws we now1).1 u ws) = 0 := by
        rw [hS1, hlatest1]
        exact rewardDelta_of_parse_ge _ _ _
          (existingAmountOf_rewardEntry (weeklySalesOf db u ws we)
            (weeklySalesOf db u ws we)) le_rfl
      have h2 := reconcile_zero_delta _ u ws we now2 hS1' hd2
      exact ⟨by rw [h2], by rw [h2]⟩
    · have hd0 : rewardDelta (computeReward (weeklySalesOf db u ws we : ℚ))
          (latestRewardEntry db u ws) = 0 :=
        le_antisymm (not_lt.mp hd)
          (rewardDelta_nonneg _ _ computeReward_nonneg)
      rw [reconcile_zero_delta db u ws we now1 hS hd0]
      show (calculateAndAddWeeklyReward db u ws we now2).2.rewardAdded = false
        ∧ (calculateAndAddWeeklyReward db u ws we now2).1 = db
      rw [reconcile_zero_delta db u ws we now2 hS hd0]
      exact ⟨rfl, rfl⟩

/-- A database with one completed 10,000-diamond sale in the period
`[0, 100)` for user 1, an empty ledger and no requests. -/
def salesDB : DB :=
  ⟨fun u => if u = 1 then some ⟨0, Role.USER⟩ else none,
    [⟨1, "ORD-C", 1, 1000, 10, 10000, OrderStatus.COMPLETED, 5⟩], [], []⟩

/-- C2 witness: two successive reconciliations of `salesDB`. -/
theorem C2_reconcile_idempotent_witness :
    ((0:ℤ) ≤ 6)
    ∧ ((calculateAndAddWeeklyReward (calculateAndAddWeeklyReward salesDB 1 0 100 6).1
          1 0 100 7).2.rewardAdded = false
      ∧ (calculateAndAddWeeklyReward (calculateAndAddWeeklyReward salesDB 1 0 100 6).1
          1 0 100 7).1 = (calculateAndAddWeeklyReward salesDB 1 0 100 6).1) :=
  ⟨by decide,
    C2_reconcile_idempotent salesDB 1 0 100 6 7 (by decide)
      (fun e he => by simp [salesDB] at he)⟩

/-- Above the threshold the reported `rewardAmount` is exactly the
computed delta, whether or not anything was credited. -/
theorem reconcile_rewardAmount (db : DB) (u : ℕ) (ws we now : ℤ)
    (h : ¬ weeklySalesOf db u ws we < 4500) :
    (calculateAndAddWeeklyReward db u ws we now).2.rewardAmount
      = some (rewardDelta (computeReward (weeklySalesOf db u ws we : ℚ))
          (latestRewardEntry db u ws)) := by
  rw [reconcile_main db u ws we now h]
  split
  · rfl
  · rfl

/-- The reconciler's delta when no reward entry exists this period. -/
theorem rewardDelta_none (total : ℚ) : rewardDelta total none = round2 total := rfl

/-- The reconciler's delta against an entry whose marker parses. -/
theorem rewardDelta_of_parse (total x : ℚ) (e : TxEntry)
    (hx : existingAmountOf e.description = some x) :
    rewardDelta total (some e) = round2 (if total > x then total - x else 0) := by
  rw [rewardDelta.eq_def]
  simp only [hx]

/-- A difference of two computed rewards is fixed by `round2`. -/
theorem round2_computeReward_sub (a b : ℚ) :
    round2 (computeReward a - computeReward b) = computeReward a - computeReward b := by
  rw [computeReward_eq_cents a, computeReward_eq_cents b]
  rw [show ((jsRound (tierRewardRaw a * 100) : ℤ) : ℚ) / 100
        - ((jsRound (tierRewardRaw b * 100) : ℤ) : ℚ) / 100
      = ((jsRound (tierRewardRaw a * 100) - jsRound (tierRewardRaw b * 100) : ℤ) : ℚ) / 100 by
    push_cast
    ring]
  exact round2_cents _

/-- C3: when the period's sales grow after a first reconciliation that
recorded a reward (no prior marker, positive total), the next
reconciliation reports exactly `computeReward S2 - computeReward S1`,
not `computeReward S2`; and in general the credited delta is never
negative (floored at zero), so the paid reward for a period never
shrinks. -/
theorem C3_incremental_credit (db db' : DB) (u : ℕ) (ws we now1 now2 : ℤ) (S2 : ℕ)
    (h45 : ¬ weeklySalesOf db u ws we < 4500)
    (hnoprior : latestRewardEntry db u ws = none)
    (hpos : 0 < computeReward (weeklySalesOf db u ws we : ℚ))
    (hstart : ws ≤ now1)
    (hmono : ∀ e ∈ db.transactions, e.created_at ≤ now1)
    (htx : db'.transactions = (calculateAndAddWeeklyReward db u ws we now1).1.transactions)
    (hS2 : weeklySalesOf db' u ws we = S2)
    (h45b : ¬ S2 < 4500)
    (hgrow : computeReward (weeklySalesOf db u ws we : ℚ) ≤ computeReward (S2 : ℚ)) :
    (calculateAndAddWeeklyReward db' u ws we now2).2.rewardAmount
        = some (computeReward (S2 : ℚ)
            - computeReward (weeklySalesOf db u ws we : ℚ))
    ∧ (∀ (total : ℚ) (ex : Option TxEntry), 0 ≤ total → 0 ≤ rewardDelta total ex) := by
  refine ⟨?_, fun total ex ht => rewardDelta_nonneg total ex ht⟩
  have hd1 : rewardDelta (computeReward (weeklySalesOf db u ws we : ℚ))
      (latestRewardEntry db u ws) = computeReward (weeklySalesOf db u ws we : ℚ) := by
    rw [hnoprior, rewardDelta_none, round2_computeReward]
  have hdpos : rewardDelta (computeReward (weeklySalesOf db u ws we : ℚ))
      (latestRewardEntry db u ws) > 0 := by rw [hd1]; exact hpos
  have h1 := reconcile_pos_delta db u ws we now1 h45 hdpos
  have htx1 : (calculateAndAddWeeklyReward db u ws we now1).1.transactions
      = db.transactions ++
        [rewardEntryOf u (weeklySalesOf db u ws we)
          (rewardDelta (computeReward (weeklySalesOf db u ws we : ℚ))
            (latestRewardEntry db u ws)) now1] := by
    rw [h1]
  have hlatest' : latestRewardEntry db' u ws
      = some (rewardEntryOf u (weeklySalesOf db u ws we)
          (rewardDelta (computeReward (weeklySalesOf db u ws we : ℚ))
            (latestRewardEntry db u ws)) now1) :=
    latestRewardEntry_append_fresh db db' u ws _ (htx.trans htx1)
      (rewardEntryTest_rewardEntryOf _ _ _ _ _ hstart) hmono
  have h45b' : ¬ weeklySalesOf db' u ws we < 4500 := by rw [hS2]; exact h45b
  have hd2 : rewardDelta (computeReward (weeklySalesOf db' u ws we : ℚ))
      (latestRewardEntry db' u ws)
      = computeReward (S2 : ℚ) - computeReward (weeklySalesOf db u ws we : ℚ) := by
    rw [hS2, hlatest',
      rewardDelta_of_parse _ _ _
        (existingAmountOf_rewardEntry (weeklySalesOf db u ws we) (weeklySalesOf db u ws we))]
    by_cases hgt : computeReward (S2 : ℚ) > computeReward (weeklySalesOf db u ws we : ℚ)
    · rw [if_pos hgt]
      exact round2_computeReward_sub _ _
    · rw [if_neg hgt]
      have heq : computeReward (S2 : ℚ) = computeReward (weeklySalesOf db u ws we : ℚ) :=
        le_antisymm (not_lt.mp hgt) hgrow
      rw [heq, sub_self]
      exact round2_zero
  rw [reconcile_rewardAmount db' u ws we now2 h45b', hd2]

/-- `salesDB` after the first reconciliation, with a second completed
10,000-diamond sale appended (sales grow from 10,000 to 20,000). -/
def grownDB : DB :=
  { (calculateAndAddWeeklyReward salesDB 1 0 100 6).1 with
      orders := [⟨1, "ORD-C", 1, 1000, 10, 10000, OrderStatus.COMPLETED, 5⟩,
                 ⟨2, "ORD-D", 1, 1000, 10, 10000, OrderStatus.COMPLETED, 6⟩] }

/-- C3 witness: sales growing from 10,000 to 20,000 across two
reconciliations of `salesDB`. -/
theorem C3_incremental_credit_witness :
    (calculateAndAddWeeklyReward grownDB 1 0 100 7).2.rewardAmount
        = some (computeReward ((20000 : ℕ) : ℚ)
            - computeReward (weeklySalesOf salesDB 1 0 100 : ℚ))
    ∧ (∀ (total : ℚ) (ex : Option TxEntry), 0 ≤ total → 0 ≤ rewardDelta total ex) :=
  C3_incremental_credit salesDB grownDB 1 0 100 6 7 20000
    (by decide) rfl
    (by rw [show weeklySalesOf salesDB 1 0 100 = 10000 from rfl]
        norm_num [computeReward, round2, tierRewardRaw, jsRound_eq_floor])
    (by decide)
    (fun e he => by simp [salesDB] at he)
    rfl rfl (by decide)
    (by rw [show weeklySalesOf salesDB 1 0 100 = 10000 from rfl]
        norm_num [computeReward, round2, tierRewardRaw, jsRound_eq_floor])

/-- C9: when the most recent reward-marker entry of the period has a
description that the pattern `Weekly Sale Reward: <number>` does not
match, the reconciler treats the previously granted amount as 0 and
reports the full computed `totalReward` again (double credit); when the
marker does parse, the reported delta is `max(totalReward - parsed, 0)`
up to the final 2-decimal rounding. -/
theorem C9_unparsed_marker_full_recredit (db : DB) (u : ℕ) (ws we now : ℤ)
    (e : TxEntry)
    (hlatest : latestRewardEntry db u ws = some e)
    (h45 : ¬ weeklySalesOf db u ws we < 4500) :
    (markerCapture e.description.data = none →
        (calculateAndAddWeeklyReward db u ws we now).2.rewardAmount
          = some (computeReward (weeklySalesOf db u ws we : ℚ)))
    ∧ (∀ (tok : List Char) (x : ℚ), markerCapture e.description.data = some tok →
        parseFloatTok tok = some x →
        (calculateAndAddWeeklyReward db u ws we now).2.rewardAmount
          = some (round2 (max (computeReward (weeklySalesOf db u ws we : ℚ) - x) 0))) := by
  constructor
  · intro hcap
    rw [reconcile_rewardAmount db u ws we now h45, hlatest]
    congr 1
    have hx : existingAmountOf e.description = some 0 := by
      simp only [existingAmountOf, hcap]
    rw [rewardDelta_of_parse _ _ _ hx]
    by_cases hpos : computeReward (weeklySalesOf db u ws we : ℚ) > 0
    · rw [if_pos hpos, sub_zero]
      exact round2_computeReward _
    · have h0 : computeReward (weeklySalesOf db u ws we : ℚ) = 0 :=
        le_antisymm (not_lt.mp hpos) computeReward_nonneg
      rw [if_neg hpos, h0]
      exact round2_zero
  · intro tok x hcap hparse
    rw [reconcile_rewardAmount db u ws we now h45, hlatest]
    congr 1
    have hx : existingAmountOf e.description = some x := by
      simp only [existingAmountOf, hcap]
      exact hparse
    rw [rewardDelta_of_parse _ _ _ hx]
    congr 1
    by_cases hgt : computeReward (weeklySalesOf db u ws we : ℚ) > x
    · rw [if_pos hgt, max_eq_left (by linarith)]
    · rw [if_neg hgt, max_eq_right (by linarith [not_lt.mp hgt])]

/-- `salesDB` with a LIKE-matching but regex-unparseable reward entry. -/
def garbledDB : DB :=
  { salesDB with
      transactions := [⟨1, 5, TxKind.ADDED, "Weekly Sale Rewardz", none, 3⟩] }

/-- C9 witness: the garbled marker makes the reconciler report the full
total again. -/
theorem C9_unparsed_marker_full_recredit_witness :
    markerCapture ("Weekly Sale Rewardz" : String).data = none
    ∧ (calculateAndAddWeeklyReward garbledDB 1 0 100 6).2.rewardAmount
        = some (computeReward (weeklySalesOf garbledDB 1 0 100 : ℚ)) :=
  ⟨by decide,
    (C9_unparsed_marker_full_recredit garbledDB 1 0 100 6
        ⟨1, 5, TxKind.ADDED, "Weekly Sale Rewardz", none, 3⟩
        rfl (by decide)).1 (by decide)⟩

/-! ## Preservation of the balance/ledger invariant -/

/-- The invariant only reads the user table and the ledger. -/
theorem balanceInv_congr (db db' : DB)
    (hu : db'.users = db.users) (ht : db'.transactions = db.transactions)
    (hinv : BalanceInv db) : BalanceInv db' := by
  intro u row hrow
  rw [ht]
  exact hinv u row (by rw [← hu]; exact hrow)

/-- A balance bump paired with one matching appended ledger entry
preserves the invariant — the shape every mutating operation has. -/
theorem balanceInv_update (db db' : DB) (uid : ℕ) (delta : ℚ) (e : TxEntry)
    (hinv : BalanceInv db)
    (husers : db'.users = db.bumpBalance uid delta)
    (htx : db'.transactions = db.transactions ++ [e])
    (heu : e.user_id = uid) (hes : signedAmount e = delta) :
    BalanceInv db' := by
  intro u row hrow
  rw [husers] at hrow
  rw [htx, ledgerSum_append, ledgerSum_single]
  simp only [DB.bumpBalance] at hrow
  by_cases hu : u = uid
  · subst hu
    rw [if_pos rfl] at hrow
    cases hud : db.users u with
    | none => rw [hud] at hrow; cases hrow
    | some r0 =>
        rw [hud, Option.map_some'] at hrow
        obtain rfl : _ = row := by injection hrow
        rw [if_pos heu, hes]
        show r0.points_balance + delta = ledgerSum db.transactions u + delta
        rw [hinv u r0 hud]
  · rw [if_neg hu] at hrow
    rw [if_neg (fun hh : e.user_id = u => hu (hh.symm.trans heu)), add_zero]
    exact hinv u row hrow

/-- Order creation preserves the invariant: the deduction and the
DEDUCTED entry are one unit. -/
theorem createOrder_inv (db db' : DB) (userId dA q oid : ℕ) (onum : String)
    (now : ℤ) (h : createOrder db userId dA q oid onum now = .ok db')
    (hinv : BalanceInv db) : BalanceInv db' := by
  simp only [createOrder] at h
  split_ifs at h
  all_goals try exact Except.noConfusion h
  split at h
  all_goals try exact Except.noConfusion h
  all_goals try split_ifs at h
  all_goals try exact Except.noConfusion h
  injection h with h
  subst h
  exact balanceInv_update db _ userId (-((dA * q : ℕ) : ℚ)) _ hinv rfl rfl rfl rfl

/-- A status transition preserves the invariant: a rejection refunds and
records the REFUNDED entry together; a completion touches neither the
balances nor the ledger. -/
theorem updateOrderStatus_inv (db db' : DB) (oid : ℕ) (st : NewStatus)
    (aid : ℕ) (now : ℤ)
    (h : updateOrderStatus db oid st aid now = .ok db')
    (hinv : BalanceInv db) : BalanceInv db' := by
  rw [updateOrderStatus] at h
  split at h
  all_goals try exact Except.noConfusion h
  all_goals try split_ifs at h
  rename_i o hfind hpend
  cases st with
  | COMPLETED =>
      injection h with h
      subst h
      exact balanceInv_congr _ db rfl rfl hinv
  | REJECTED =>
      injection h with h
      subst h
      refine balanceInv_update
        { db with orders := db.orders.map fun o' =>
            if o'.id = oid then { o' with status := NewStatus.REJECTED.toStatus } else o' }
        _ o.user_id ((o.points_used : ℕ) : ℚ) _ ?_ rfl rfl rfl rfl
      exact balanceInv_congr _ db rfl rfl hinv

/-- The reconciler preserves the invariant: either it changes nothing, or
it bumps the balance and appends the matching ADDED marker entry. -/
theorem reconcile_inv (db : DB) (u : ℕ) (ws we now : ℤ) (hinv : BalanceInv db) :
    BalanceInv (calculateAndAddWeeklyReward db u ws we now).1 := by
  by_cases hS : weeklySalesOf db u ws we < 4500
  · rw [reconcile_below db u ws we now hS]
    exact hinv
  · by_cases hd : rewardDelta (computeReward (weeklySalesOf db u ws we : ℚ))
        (latestRewardEntry db u ws) > 0
    · rw [reconcile_pos_delta db u ws we now hS hd]
      exact balanceInv_update db _ u _ _ hinv rfl rfl rfl rfl
    · have hd0 : rewardDelta (computeReward (weeklySalesOf db u ws we : ℚ))
          (latestRewardEntry db u ws) = 0 :=
        le_antisymm (not_lt.mp hd) (rewardDelta_nonneg _ _ computeReward_nonneg)
      rw [reconcile_zero_delta db u ws we now hS hd0]
      exact hinv

/-- An admin point grant preserves the invariant. -/
theorem addPoints_inv (db db' : DB) (userId amount : ℕ) (descr : Option String)
    (aid : ℕ) (now : ℤ)
    (h : addPoints db userId amount descr aid now = .ok db')
    (hinv : BalanceInv db) : BalanceInv db' := by
  rw [addPoints] at h
  split_ifs at h
  all_goals try exact Except.noConfusion h
  split at h
  all_goals try exact Except.noConfusion h
  all_goals try split_ifs at h
  all_goals try exact Except.noConfusion h
  injection h with h
  subst h
  exact balanceInv_update db _ userId ((amount : ℕ) : ℚ) _ hinv rfl rfl rfl rfl

/-- Processing a point request preserves the invariant: approval adds the
amount and the ADDED entry together; rejection touches neither. -/
theorem processPointRequest_inv (db db' : DB) (rid : ℕ) (action : ReqAction)
    (aid : ℕ) (now : ℤ)
    (h : processPointRequest db rid action aid now = .ok db')
    (hinv : BalanceInv db) : BalanceInv db' := by
  rw [processPointRequest] at h
  split at h
  all_goals try exact Except.noConfusion h
  split at h
  all_goals try exact Except.noConfusion h
  rename_i req hfind xu row hrow
  cases action with
  | approve =>
      injection h with h
      subst h
      exact balanceInv_update db _ req.user_id ((req.requested_amount : ℕ) : ℚ)
        _ hinv rfl rfl rfl rfl
  | reject =>
      injection h with h
      subst h
      exact balanceInv_congr _ db rfl rfl hinv

/-- One committed operation preserves the invariant. -/
theorem step_inv (db db' : DB) (h : Step db db') (hinv : BalanceInv db) :
    BalanceInv db' := by
  cases h with
  | create userId dA q oid onum now hop =>
      exact createOrder_inv db db' userId dA q oid onum now hop hinv
  | transition oid st aid now hop =>
      exact updateOrderStatus_inv db db' oid st aid now hop hinv
  | reconcile u ws we now =>
      exact reconcile_inv db u ws we now hinv
  | grant userId amount descr aid now hop =>
      exact addPoints_inv db db' userId amount descr aid now hop hinv
  | request rid action aid now hop =>
      exact processPointRequest_inv db db' rid action aid now hop hinv

/-- C1: starting from any state where every user's `points_balance`
equals the signed sum of that user's ledger entries (ADDED and REFUNDED
positive, DEDUCTED negative), the invariant holds again after every
sequence of committed operations — order creation, order
rejection/completion, weekly reward reconciliation, admin point grant,
point-request processing.  Each proof obligation shows the operation
writes the matching `transactions` row in the same transaction as its
balance change. -/
theorem C1_balance_equals_ledger_sum (db0 db : DB) (h0 : BalanceInv db0)
    (hsteps : Relation.ReflTransGen Step db0 db) : BalanceInv db := by
  induction hsteps with
  | refl => exact h0
  | tail _ hstep ih => exact step_inv _ _ hstep ih

/-- A consistent starting state: user 1 holds 500 points, backed by one
ADDED ledger entry of 500. -/
def invDB : DB :=
  ⟨fun u => if u = 1 then some ⟨500, Role.USER⟩ else none, [],
    [⟨1, 500, TxKind.ADDED, "Quick Store", some 9, 0⟩], []⟩

/-- The invariant holds of `invDB`. -/
theorem invDB_balanceInv : BalanceInv invDB := by
  intro u row hrow
  have hsum1 : ledgerSum invDB.transactions 1 = 500 := by
    rw [show invDB.transactions
        = [⟨1, 500, TxKind.ADDED, "Quick Store", some 9, 0⟩] from rfl,
      ledgerSum_single, if_pos rfl]
    rfl
  by_cases hu : u = 1
  · subst hu
    have h2 : invDB.users 1 = some ⟨500, Role.USER⟩ := rfl
    rw [h2] at hrow
    obtain rfl : _ = row := by injection hrow
    rw [hsum1]
  · have h2 : invDB.users u = none := by
      show (if u = 1 then some (⟨500, Role.USER⟩ : UserRow) else none) = none
      rw [if_neg hu]
    rw [h2] at hrow
    cases hrow

/-- C1 witness: the invariant survives a committed reconciliation run on
`invDB`. -/
theorem C1_balance_equals_ledger_sum_witness :
    BalanceInv (calculateAndAddWeeklyReward invDB 1 0 100 5).1 :=
  C1_balance_equals_ledger_sum invDB _ invDB_balanceInv
    (Relation.ReflTransGen.single (Step.reconcile invDB 1 0 100 5))

end DiamondStore
